import Mathlib

/-!
Shallow embedding of the sample-analytics analysis pipeline
(`data_models.py`, `data_processors.py`, `app_filter.py`,
`analyze_data_solid.py`) and proofs about its specified properties.

Modelling conventions:
* Python `float` values are modelled as exact rationals (`ℚ`); all the
  arithmetic the pipeline performs (lookup-table weights, products with
  integer counts, division by a total, scaling by 100) is exact on the
  inputs considered, so `ℚ` is a faithful model of the value-level
  behaviour.
* Python `dict`s (which preserve insertion order) are modelled as
  association lists `List (String × β)` together with the operations
  `dictGet?`, `dictSet`, `dictContains` mirroring `d[k]`, `d[k] = v`
  and `k in d`; `dictSet` updates an existing key in place and appends
  a fresh key, exactly like CPython dictionaries.
* Python `set`s of strings are modelled as duplicate-free lists built
  by `setAdd`.
* The unguarded dictionary subscript `appcode_counts[record.app_code]`
  in `DataAnalysisService._enhance_records` is modelled with `Option`:
  a missing key yields `none` (the Python `KeyError`).
* File I/O is out of scope: `analyze_data` takes the list of records
  that `read_data` produced, and `load_allowed_appcodes` takes the
  sequence of `AppCode` cells of the rows (`none` when the key is
  absent from a row).
-/

/-- Mirrors `InfrastructureRecord` of `data_models.py`: four base fields
read from the CSV plus four derived fields defaulting to zero. -/
structure InfrastructureRecord where
  application_service : String
  app_code : String
  composite_score : String
  class_type : String
  total_infrastructure : Nat := 0
  composite_score_number : ℚ := 0
  composite_risk_score : ℚ := 0
  composite_risk_score_percent : ℚ := 0
deriving Repr, DecidableEq

/-- Mirrors `RiskChartEntry` of `data_models.py`. -/
structure RiskChartEntry where
  rank : Nat
  app_code : String
  composite_risk_score : ℚ
  composite_risk_score_percent : ℚ
deriving Repr, DecidableEq

/-- Mirrors `CompositeScoreMapper.map_to_number`: the fixed
`SCORE_MAPPING` table with default `0.0` for unknown labels. -/
def map_to_number (score : String) : ℚ :=
  if score = "High" then 3
  else if score = "Moderate High" then 5/2
  else if score = "Moderate" then 2
  else if score = "Low" then 1
  else 0

/-- Association-list model of Python dictionary lookup `d.get(k)` /
`d[k]`: the value stored at the first (unique) occurrence of the key. -/
def dictGet? {β : Type} : List (String × β) → String → Option β
  | [], _ => none
  | (k', v) :: rest, k => if k' = k then some v else dictGet? rest k

/-- Association-list model of Python `k in d`. -/
def dictContains {β : Type} : List (String × β) → String → Bool
  | [], _ => false
  | (k', _) :: rest, k => k' = k || dictContains rest k

/-- Association-list model of Python `d[k] = v`: update an existing key
in place (keeping its position), append a fresh key at the end — the
insertion-order semantics of CPython dictionaries. -/
def dictSet {β : Type} : List (String × β) → String → β → List (String × β)
  | [], k, v => [(k, v)]
  | (k', v') :: rest, k, v =>
      if k' = k then (k', v) :: rest else (k', v') :: dictSet rest k v

/-- Association-list model of Python `d.get(k, d0)`. -/
def dictGetD {β : Type} (m : List (String × β)) (k : String) (d0 : β) : β :=
  (dictGet? m k).getD d0

/-- Mirrors `AppCodeCounter.count_appcodes`: tally each `app_code` in
a fresh dictionary via `counts[k] = counts.get(k, 0) + 1`. -/
def count_appcodes (records : List InfrastructureRecord) : List (String × Nat) :=
  records.foldl
    (fun counts r => dictSet counts r.app_code (dictGetD counts r.app_code 0 + 1))
    []

/-- Mirrors `RiskCalculator.calculate_risk_scores`: every record gets
`composite_risk_score = composite_score_number * total_infrastructure`. -/
def calculate_risk_scores (records : List InfrastructureRecord) :
    List InfrastructureRecord :=
  records.map fun r =>
    { r with composite_risk_score :=
        r.composite_score_number * (r.total_infrastructure : ℚ) }

/-- Sum of the `composite_risk_score` field over a record list (the
`total_risk = sum(...)` expression of `calculate_risk_percentages`). -/
def total_risk (records : List InfrastructureRecord) : ℚ :=
  (records.map (·.composite_risk_score)).sum

/-- Mirrors `RiskCalculator.calculate_risk_percentages`: when the total
risk is positive every record gets `percent = risk / total * 100`,
otherwise every record gets `percent = 0.0`. -/
def calculate_risk_percentages (records : List InfrastructureRecord) :
    List InfrastructureRecord :=
  if total_risk records > 0 then
    records.map fun r =>
      { r with composite_risk_score_percent :=
          r.composite_risk_score / total_risk records * 100 }
  else
    records.map fun r => { r with composite_risk_score_percent := 0 }

/-- Modelled from the spec: the grouped normalization variant
`RiskCalculator.calculate_risk_percentages_by_group` is exercised by the
repository's test suite (`test_solid_implementation.py`,
`test_risk_calculator_grouped_percentages`) but its implementation is not
among the provided sources.  Per spec §4.4.4 it groups records by
severity label (`composite_score`), computes each group's total risk,
and sets each record's `composite_risk_score_percent` relative to its
own group's total, with the zero-total rule applied independently per
group. -/
def group_percent_update (records : List InfrastructureRecord)
    (r : InfrastructureRecord) : InfrastructureRecord :=
  if total_risk (records.filter fun s => s.composite_score = r.composite_score) > 0 then
    { r with composite_risk_score_percent :=
        r.composite_risk_score /
          total_risk (records.filter fun s => s.composite_score = r.composite_score) *
          100 }
  else
    { r with composite_risk_score_percent := 0 }

/-- Modelled from the spec (continued): the grouped pass applies
`group_percent_update` to every record. -/
def calculate_risk_percentages_by_group (records : List InfrastructureRecord) :
    List InfrastructureRecord :=
  records.map (group_percent_update records)

/-- Model of Python's `str.strip()`: drop whitespace characters from
both ends of the string (structural, over the character list). -/
def pyStrip (s : String) : String :=
  ⟨((s.data.dropWhile Char.isWhitespace).reverse.dropWhile Char.isWhitespace).reverse⟩

/-- Lexicographic comparison of character lists by code point, the
order Python uses to compare `str` values. -/
def charListLe : List Char → List Char → Bool
  | [], _ => true
  | _ :: _, [] => false
  | a :: as, b :: bs => if a = b then charListLe as bs else decide (a < b)

/-- Model of Python's `<=` on `str`: lexicographic by code point. -/
def strLe (a b : String) : Bool :=
  charListLe a.data b.data

/-- Set insertion used to model Python's `set.add`. -/
def setAdd (s : List String) (x : String) : List String :=
  if s.contains x then s else s ++ [x]

/-- Mirrors the state of `CSVAppCodeFilter`: the loaded set of allowed
app codes (empty when not loaded or when loading failed). -/
structure CSVAppCodeFilter where
  allowed_appcodes : List String
deriving Repr, DecidableEq

/-- Mirrors `CSVAppCodeFilter.is_allowed`: with an empty allow-set every
code is allowed; otherwise membership of the trimmed query is tested. -/
def CSVAppCodeFilter.is_allowed (f : CSVAppCodeFilter) (app_code : String) : Bool :=
  if f.allowed_appcodes.isEmpty then true
  else f.allowed_appcodes.contains (pyStrip app_code)

/-- Mirrors the row-processing loop of
`CSVAppCodeFilter.load_allowed_appcodes`: each row contributes its
`AppCode` cell (`none` models a row without that key); a cell whose
trimmed value is nonempty is added, trimmed, to the set. -/
def load_allowed_appcodes (rows : List (Option String)) : List String :=
  rows.foldl
    (fun s row =>
      match row with
      | some v => if pyStrip v = "" then s else setAdd s (pyStrip v)
      | none => s)
    []

/-- Mirrors the deduplication loop of `DataAnalysisService.analyze_data`
(lines 209–213): `if record.app_code not in unique_records:
unique_records[record.app_code] = record`. -/
def unique_by_appcode (records : List InfrastructureRecord) :
    List (String × InfrastructureRecord) :=
  records.foldl
    (fun m r => if dictContains m r.app_code then m else dictSet m r.app_code r)
    []

/-- Option-valued map over a list, modelling a Python loop whose body can
raise (here: a `KeyError` from an unguarded dictionary subscript). -/
def optionMapList {α β : Type} (f : α → Option β) : List α → Option (List β)
  | [] => some []
  | x :: xs =>
      match f x, optionMapList f xs with
      | some y, some ys => some (y :: ys)
      | _, _ => none

/-- First enhancement loop of `DataAnalysisService._enhance_records`:
`record.total_infrastructure = appcode_counts[record.app_code]` (an
unguarded lookup, hence `Option`) and
`record.composite_score_number = CompositeScoreMapper.map_to_number(...)`. -/
def enhance_record (counts : List (String × Nat)) (r : InfrastructureRecord) :
    Option InfrastructureRecord :=
  (dictGet? counts r.app_code).map fun c =>
    { r with total_infrastructure := c,
             composite_score_number := map_to_number r.composite_score }

/-- Mirrors `DataAnalysisService._enhance_records`: the count/weight
loop, then `calculate_risk_scores`, then `calculate_risk_percentages`. -/
def enhance_records (records : List InfrastructureRecord)
    (counts : List (String × Nat)) : Option (List InfrastructureRecord) :=
  (optionMapList (enhance_record counts) records).map fun rs =>
    calculate_risk_percentages (calculate_risk_scores rs)

/-- Comparator used to model Python's `sorted(records,
key=lambda x: x.composite_risk_score_percent, reverse=True)`: a stable
sort that puts `a` before `b` whenever `b.percent ≤ a.percent`. -/
def chartLe (a b : InfrastructureRecord) : Bool :=
  decide (b.composite_risk_score_percent ≤ a.composite_risk_score_percent)

/-- Mirrors the `for i, record in enumerate(sorted_records, 1)` loop of
`RiskChartGenerator.generate_chart`: build one `RiskChartEntry` per
record, with consecutive ranks starting at `i`. -/
def chart_entries_from (i : Nat) : List InfrastructureRecord → List RiskChartEntry
  | [] => []
  | r :: rs =>
      { rank := i, app_code := r.app_code,
        composite_risk_score := r.composite_risk_score,
        composite_risk_score_percent := r.composite_risk_score_percent } ::
        chart_entries_from (i + 1) rs

/-- Mirrors `RiskChartGenerator.generate_chart`: stable-sort the records
by `composite_risk_score_percent` descending, then enumerate with
1-based ranks. -/
def generate_chart (records : List InfrastructureRecord) : List RiskChartEntry :=
  chart_entries_from 1 (records.mergeSort chartLe)

/-- Comparator modelling `unique_record_list.sort(key=lambda x: x.app_code)`. -/
def appCodeLe (a b : InfrastructureRecord) : Bool :=
  strLe a.app_code b.app_code

/-- Deduplicated map after the optional allow-list filter of
`analyze_data` (lines 216–223 of `data_processors.py`): with a
configured filter, keep only entries whose key `is_allowed`. -/
def pipeline_unique (filt : Option CSVAppCodeFilter)
    (records : List InfrastructureRecord) :
    List (String × InfrastructureRecord) :=
  match filt with
  | some f => (unique_by_appcode records).filter fun p => f.is_allowed p.1
  | none => unique_by_appcode records

/-- Raw occurrence tally after the optional allow-list filter of
`analyze_data` (lines 225–234 of `data_processors.py`): the counts are
taken over all raw records and then restricted to allowed keys. -/
def pipeline_counts (filt : Option CSVAppCodeFilter)
    (records : List InfrastructureRecord) : List (String × Nat) :=
  match filt with
  | some f => (count_appcodes records).filter fun p => f.is_allowed p.1
  | none => count_appcodes records

/-- Mirrors `DataAnalysisService.analyze_data` (the pipeline after
`read_data`): short-circuit on an empty read; deduplicate by app code
(first occurrence wins); optionally filter the deduplicated map and the
raw tally by the configured allow-list; enhance; sort by app code.
`none` models a `KeyError` escaping the enhancement loop. -/
def analyze_data (filt : Option CSVAppCodeFilter)
    (records : List InfrastructureRecord) :
    Option (List InfrastructureRecord × List (String × Nat)) :=
  if records.isEmpty then some ([], [])
  else
    match enhance_records ((pipeline_unique filt records).map (·.2))
        (pipeline_counts filt records) with
    | none => none
    | some enhanced =>
        some (enhanced.mergeSort appCodeLe, pipeline_counts filt records)

/-- Number of raw input rows whose `app_code` equals `k` (the quantity
the spec calls the occurrence count over the unfiltered raw input). -/
def rawCount (records : List InfrastructureRecord) (k : String) : Nat :=
  (records.filter fun r => r.app_code = k).length

/-- Projection of the four base fields of a record (the fields read from
the input and never recomputed by enrichment). -/
def baseFields (r : InfrastructureRecord) : String × String × String × String :=
  (r.application_service, r.app_code, r.composite_score, r.class_type)

lemma dictGet?_dictSet {β : Type} (m : List (String × β)) (k q : String) (v : β) :
    dictGet? (dictSet m k v) q = if k = q then some v else dictGet? m q := by
  induction m with
  | nil => simp [dictSet, dictGet?]
  | cons p rest ih =>
      obtain ⟨k', v'⟩ := p
      by_cases h1 : k' = k
      · subst h1
        by_cases h2 : k' = q <;> simp [dictSet, dictGet?, h2]
      · by_cases h2 : k' = q
        · have hkq : k ≠ q := fun h => h1 (h2.trans h.symm)
          simp [dictSet, dictGet?, h1, h2, hkq, Ne.symm hkq]
        · simp [dictSet, dictGet?, h1, h2, ih]

lemma dictGetD_eq {β : Type} (m : List (String × β)) (k : String) (d0 : β) :
    dictGetD m k d0 = (dictGet? m k).getD d0 := rfl

lemma dictContains_eq_isSome {β : Type} (m : List (String × β)) (k : String) :
    dictContains m k = (dictGet? m k).isSome := by
  induction m with
  | nil => simp [dictContains, dictGet?]
  | cons p rest ih =>
      obtain ⟨k', v'⟩ := p
      by_cases h : k' = k <;> simp [dictContains, dictGet?, h, ih]

lemma dictGet?_filter {β : Type} (m : List (String × β)) (pred : String → Bool)
    (k : String) :
    dictGet? (m.filter fun p => pred p.1) k =
      if pred k = true then dictGet? m k else none := by
  induction m with
  | nil => simp [dictGet?]
  | cons p rest ih =>
      obtain ⟨k', v'⟩ := p
      by_cases hp : pred k' = true
      · by_cases hk : k' = k
        · subst hk
          simp [List.filter_cons, hp, dictGet?]
        · simp [List.filter_cons, hp, dictGet?, hk, ih]
      · by_cases hk : k' = k
        · subst hk
          simp only [Bool.not_eq_true] at hp
          simp [List.filter_cons, hp, dictGet?, ih]
        · simp only [Bool.not_eq_true] at hp
          simp [List.filter_cons, hp, dictGet?, hk, ih]

lemma count_appcodes_foldl (records : List InfrastructureRecord)
    (acc : List (String × Nat)) (k : String) :
    dictGet?
        (records.foldl
          (fun counts r => dictSet counts r.app_code (dictGetD counts r.app_code 0 + 1))
          acc) k =
      if rawCount records k = 0 then dictGet? acc k
      else some (dictGetD acc k 0 + rawCount records k) := by
  induction records generalizing acc with
  | nil => simp [rawCount]
  | cons r rs ih =>
      rw [List.foldl_cons, ih]
      by_cases h : r.app_code = k
      · have hget : dictGet? (dictSet acc r.app_code (dictGetD acc r.app_code 0 + 1)) k
            = some (dictGetD acc k 0 + 1) := by
          rw [dictGet?_dictSet, if_pos h, h]
        have hgetD : dictGetD (dictSet acc r.app_code (dictGetD acc r.app_code 0 + 1)) k 0
            = dictGetD acc k 0 + 1 := by
          rw [dictGetD_eq, hget]
          rfl
        have hc : rawCount (r :: rs) k = rawCount rs k + 1 := by
          simp [rawCount, List.filter_cons, h, Nat.add_comm]
        rw [hc, if_neg (Nat.succ_ne_zero _)]
        by_cases h0 : rawCount rs k = 0
        · rw [if_pos h0, hget, h0]
        · rw [if_neg h0, hgetD]
          congr 1
          omega
      · have hget : dictGet? (dictSet acc r.app_code (dictGetD acc r.app_code 0 + 1)) k
            = dictGet? acc k := by
          rw [dictGet?_dictSet, if_neg h]
        have hgetD : dictGetD (dictSet acc r.app_code (dictGetD acc r.app_code 0 + 1)) k 0
            = dictGetD acc k 0 := by
          rw [dictGetD_eq, hget, dictGetD_eq]
        have hc : rawCount (r :: rs) k = rawCount rs k := by
          simp [rawCount, List.filter_cons, h]
        rw [hc, hget, hgetD]

lemma dictGet?_count_appcodes (records : List InfrastructureRecord) (k : String) :
    dictGet? (count_appcodes records) k =
      if rawCount records k = 0 then none else some (rawCount records k) := by
  have h := count_appcodes_foldl records [] k
  simpa [count_appcodes, dictGet?, dictGetD] using h

lemma mem_dictSet {β : Type} {k : String} {v : β} {p : String × β} :
    ∀ {m : List (String × β)}, p ∈ dictSet m k v → p ∈ m ∨ p = (k, v) := by
  intro m
  induction m with
  | nil => intro h; simpa [dictSet] using h
  | cons q rest ih =>
      obtain ⟨k', v'⟩ := q
      intro h
      by_cases hk : k' = k
      · subst hk
        simp only [dictSet, if_pos rfl] at h
        cases List.mem_cons.mp h with
        | inl heq => exact Or.inr heq
        | inr hmem => exact Or.inl (List.mem_cons_of_mem _ hmem)
      · simp only [dictSet, if_neg hk] at h
        cases List.mem_cons.mp h with
        | inl heq => exact Or.inl (heq ▸ List.mem_cons_self _ _)
        | inr hmem =>
            cases ih hmem with
            | inl h' => exact Or.inl (List.mem_cons_of_mem _ h')
            | inr h' => exact Or.inr h'

lemma dictSet_keys_of_not_contains {β : Type} {m : List (String × β)} {k : String}
    (v : β) (h : dictContains m k = false) :
    (dictSet m k v).map Prod.fst = m.map Prod.fst ++ [k] := by
  induction m with
  | nil => simp [dictSet]
  | cons q rest ih =>
      obtain ⟨k', v'⟩ := q
      simp only [dictContains, Bool.or_eq_false_iff, decide_eq_false_iff_not] at h
      simp [dictSet, h.1, ih h.2]

lemma dictContains_false_not_mem {β : Type} {m : List (String × β)} {k : String}
    (h : dictContains m k = false) : k ∉ m.map Prod.fst := by
  induction m with
  | nil => simp
  | cons q rest ih =>
      obtain ⟨k', v'⟩ := q
      simp only [dictContains, Bool.or_eq_false_iff, decide_eq_false_iff_not] at h
      simp only [List.map_cons, List.mem_cons]
      rintro (h' | h')
      · exact h.1 h'.symm
      · exact ih h.2 h'

lemma unique_foldl_get (records : List InfrastructureRecord)
    (acc : List (String × InfrastructureRecord)) (k : String) :
    dictGet?
        (records.foldl
          (fun m r => if dictContains m r.app_code then m else dictSet m r.app_code r)
          acc) k =
      (dictGet? acc k).or (records.find? fun r => r.app_code = k) := by
  induction records generalizing acc with
  | nil => simp [Option.or_none]
  | cons r rs ih =>
      rw [List.foldl_cons, ih]
      by_cases hc : dictContains acc r.app_code
      · rw [if_pos hc]
        by_cases hk : r.app_code = k
        · have hs : (dictGet? acc k).isSome := by
            rw [dictContains_eq_isSome, hk] at hc
            exact hc
          obtain ⟨v, hv⟩ := Option.isSome_iff_exists.mp hs
          rw [hv]
          rfl
        · rw [List.find?_cons_of_neg _ (by simpa using hk)]
      · rw [if_neg hc, dictGet?_dictSet]
        have hc' : dictGet? acc r.app_code = none := by
          rw [dictContains_eq_isSome] at hc
          exact Option.not_isSome_iff_eq_none.mp (by simpa using hc)
        by_cases hk : r.app_code = k
        · rw [if_pos hk, ← hk, hc', List.find?_cons_of_pos _ (by simp [hk])]
          rfl
        · rw [if_neg hk, List.find?_cons_of_neg _ (by simpa using hk)]

lemma unique_by_appcode_get (records : List InfrastructureRecord) (k : String) :
    dictGet? (unique_by_appcode records) k =
      records.find? fun r => r.app_code = k := by
  have h := unique_foldl_get records [] k
  simpa [unique_by_appcode, dictGet?, Option.none_or] using h

lemma unique_foldl_nodup (records : List InfrastructureRecord) :
    ∀ (acc : List (String × InfrastructureRecord)),
      (acc.map Prod.fst).Nodup →
      ((records.foldl
          (fun m r => if dictContains m r.app_code then m else dictSet m r.app_code r)
          acc).map Prod.fst).Nodup := by
  induction records with
  | nil => intro acc h; exact h
  | cons r rs ih =>
      intro acc h
      rw [List.foldl_cons]
      by_cases hc : dictContains acc r.app_code
      · rw [if_pos hc]
        exact ih _ h
      · rw [if_neg hc]
        apply ih
        have hc' : dictContains acc r.app_code = false := by simpa using hc
        rw [dictSet_keys_of_not_contains _ hc']
        refine List.Nodup.append h (List.nodup_singleton _) ?_
        intro a ha hb
        rw [List.mem_singleton] at hb
        subst hb
        exact dictContains_false_not_mem hc' ha

lemma unique_foldl_mem (records : List InfrastructureRecord) :
    ∀ (acc : List (String × InfrastructureRecord)) (p : String × InfrastructureRecord),
      p ∈ records.foldl
            (fun m r => if dictContains m r.app_code then m else dictSet m r.app_code r)
            acc →
      p ∈ acc ∨ (p.2 ∈ records ∧ p.1 = p.2.app_code) := by
  induction records with
  | nil => intro acc p hp; exact Or.inl hp
  | cons r rs ih =>
      intro acc p hp
      rw [List.foldl_cons] at hp
      by_cases hc : dictContains acc r.app_code
      · rw [if_pos hc] at hp
        cases ih _ _ hp with
        | inl h => exact Or.inl h
        | inr h => exact Or.inr ⟨List.mem_cons_of_mem _ h.1, h.2⟩
      · rw [if_neg hc] at hp
        cases ih _ _ hp with
        | inl h =>
            cases mem_dictSet h with
            | inl h' => exact Or.inl h'
            | inr h' =>
                refine Or.inr ?_
                rw [h']
                exact ⟨List.mem_cons_self _ _, rfl⟩
        | inr h => exact Or.inr ⟨List.mem_cons_of_mem _ h.1, h.2⟩

/-- C1: for every input record sequence, the deduplication step keeps
exactly one record per distinct `app_code` (the key list of the
first-write-wins map has no duplicates), and the record stored under any
key `k` is precisely the first record with `app_code = k` in input order
(`List.find?`), so a later duplicate never replaces an earlier record. -/
theorem c1_dedup_first_write_wins (records : List InfrastructureRecord) :
    ((unique_by_appcode records).map Prod.fst).Nodup ∧
    ∀ k : String,
      dictGet? (unique_by_appcode records) k =
        records.find? fun r => r.app_code = k := by
  constructor
  · exact unique_foldl_nodup records [] (by simp)
  · intro k
    exact unique_by_appcode_get records k

lemma mem_setAdd {s : List String} {x m : String} (h : m ∈ setAdd s x) :
    m ∈ s ∨ m = x := by
  unfold setAdd at h
  by_cases hc : s.contains x
  · rw [if_pos hc] at h
    exact Or.inl h
  · rw [if_neg hc] at h
    rcases List.mem_append.mp h with h' | h'
    · exact Or.inl h'
    · exact Or.inr (List.mem_singleton.mp h')

lemma load_foldl_mem (rows : List (Option String)) :
    ∀ (acc : List String) (m : String),
      m ∈ rows.foldl
            (fun s row =>
              match row with
              | some v => if pyStrip v = "" then s else setAdd s (pyStrip v)
              | none => s)
            acc →
      m ∈ acc ∨ ∃ v, some v ∈ rows ∧ m = pyStrip v := by
  induction rows with
  | nil => intro acc m h; exact Or.inl h
  | cons row rest ih =>
      intro acc m h
      rw [List.foldl_cons] at h
      cases row with
      | none =>
          cases ih _ _ h with
          | inl h' => exact Or.inl h'
          | inr h' =>
              obtain ⟨v, hv, hm⟩ := h'
              exact Or.inr ⟨v, List.mem_cons_of_mem _ hv, hm⟩
      | some v =>
          dsimp only at h
          by_cases hz : pyStrip v = ""
          · rw [if_pos hz] at h
            cases ih _ _ h with
            | inl h' => exact Or.inl h'
            | inr h' =>
                obtain ⟨w, hw, hm⟩ := h'
                exact Or.inr ⟨w, List.mem_cons_of_mem _ hw, hm⟩
          · rw [if_neg hz] at h
            cases ih _ _ h with
            | inl h' =>
                cases mem_setAdd h' with
                | inl h'' => exact Or.inl h''
                | inr h'' => exact Or.inr ⟨v, List.mem_cons_self _ _, h''⟩
            | inr h' =>
                obtain ⟨w, hw, hm⟩ := h'
                exact Or.inr ⟨w, List.mem_cons_of_mem _ hw, hm⟩

/-- C7: with an empty allow-set `is_allowed` accepts every query; with a
nonempty allow-set it accepts exactly the queries whose stripped form is
a member of the stored set; and every member of a loaded set is the
stripped form of some row's `AppCode` cell. -/
theorem c7_filter_membership (f : CSVAppCodeFilter) (q : String) :
    (f.allowed_appcodes = [] → f.is_allowed q = true) ∧
    (f.allowed_appcodes ≠ [] →
      (f.is_allowed q = true ↔ pyStrip q ∈ f.allowed_appcodes)) ∧
    ∀ (rows : List (Option String)) (m : String),
      m ∈ load_allowed_appcodes rows → ∃ v, some v ∈ rows ∧ m = pyStrip v := by
  refine ⟨?_, ?_, ?_⟩
  · intro h
    rw [CSVAppCodeFilter.is_allowed, if_pos (List.isEmpty_iff.mpr h)]
  · intro h
    rw [CSVAppCodeFilter.is_allowed,
      if_neg (fun h' => h (List.isEmpty_iff.mp h'))]
    simp [List.contains, List.elem_iff]
  · intro rows m hm
    cases load_foldl_mem rows [] m hm with
    | inl h' => exact absurd h' (List.not_mem_nil m)
    | inr h' => exact h'

/-- Witness for C7 at concrete inputs: the empty filter allows an
arbitrary code, and the filter loaded with `APP1` allows the padded
query `" APP1 "`. -/
theorem c7_filter_membership_witness :
    CSVAppCodeFilter.is_allowed ⟨[]⟩ "ANY" = true ∧
    CSVAppCodeFilter.is_allowed ⟨["APP1"]⟩ " APP1 " = true := by
  constructor
  · exact (c7_filter_membership ⟨[]⟩ "ANY").1 rfl
  · exact ((c7_filter_membership ⟨["APP1"]⟩ " APP1 ").2.1 (by decide)).mpr
      (by decide)

lemma total_risk_nonneg (records : List InfrastructureRecord)
    (h : ∀ r ∈ records, 0 ≤ r.composite_risk_score) : 0 ≤ total_risk records := by
  apply List.sum_nonneg
  intro x hx
  obtain ⟨r, hr, rfl⟩ := List.mem_map.mp hx
  exact h r hr

lemma total_risk_pos_of_ne (records : List InfrastructureRecord)
    (h : ∀ r ∈ records, 0 ≤ r.composite_risk_score)
    (hne : total_risk records ≠ 0) : total_risk records > 0 :=
  lt_of_le_of_ne (total_risk_nonneg records h) (Ne.symm hne)

lemma sum_map_div_mul (l : List ℚ) (t : ℚ) :
    (l.map fun x => x / t * 100).sum = l.sum / t * 100 := by
  induction l with
  | nil => simp
  | cons x xs ih => simp [ih, add_div, add_mul]

/-- C3: under the data-model invariant that risk scores are nonnegative
(they are products `severityWeight × occurrenceCount` of nonnegative
factors), the global percentage pass assigns
`risk / total * 100` to every record when the total risk is nonzero, and
assigns exactly `0` to every record when the total risk is zero (the
guarded else-branch, which performs no division). -/
theorem c3_global_percentage_assignment (records : List InfrastructureRecord)
    (h : ∀ r ∈ records, 0 ≤ r.composite_risk_score) :
    (total_risk records ≠ 0 →
      calculate_risk_percentages records =
        records.map fun r =>
          { r with composite_risk_score_percent :=
              r.composite_risk_score / total_risk records * 100 }) ∧
    (total_risk records = 0 →
      calculate_risk_percentages records =
        records.map fun r => { r with composite_risk_score_percent := 0 }) := by
  constructor
  · intro hne
    rw [calculate_risk_percentages, if_pos (total_risk_pos_of_ne records h hne)]
  · intro hz
    rw [calculate_risk_percentages, if_neg (by rw [hz]; exact lt_irrefl 0)]

/-- Witness for C3: a concrete two-record run with nonzero total risk
and a concrete one-record run with zero total risk. -/
theorem c3_global_percentage_assignment_witness :
    (calculate_risk_percentages
        [{ application_service := "S1", app_code := "A1", composite_score := "High",
           class_type := "Server", total_infrastructure := 2,
           composite_score_number := 3, composite_risk_score := 6,
           composite_risk_score_percent := 0 },
         { application_service := "S2", app_code := "A2", composite_score := "Moderate",
           class_type := "DB", total_infrastructure := 1,
           composite_score_number := 2, composite_risk_score := 2,
           composite_risk_score_percent := 0 }] =
      [{ application_service := "S1", app_code := "A1", composite_score := "High",
         class_type := "Server", total_infrastructure := 2,
         composite_score_number := 3, composite_risk_score := 6,
         composite_risk_score_percent := 6 / 8 * 100 },
       { application_service := "S2", app_code := "A2", composite_score := "Moderate",
         class_type := "DB", total_infrastructure := 1,
         composite_score_number := 2, composite_risk_score := 2,
         composite_risk_score_percent := 2 / 8 * 100 }]) ∧
    (calculate_risk_percentages
        [{ application_service := "S3", app_code := "A3", composite_score := "Critical",
           class_type := "DB", total_infrastructure := 4,
           composite_score_number := 0, composite_risk_score := 0,
           composite_risk_score_percent := 7 }] =
      [{ application_service := "S3", app_code := "A3", composite_score := "Critical",
         class_type := "DB", total_infrastructure := 4,
         composite_score_number := 0, composite_risk_score := 0,
         composite_risk_score_percent := 0 }]) := by
  constructor
  · have h :=
      (c3_global_percentage_assignment
        [{ application_service := "S1", app_code := "A1", composite_score := "High",
           class_type := "Server", total_infrastructure := 2,
           composite_score_number := 3, composite_risk_score := 6,
           composite_risk_score_percent := 0 },
         { application_service := "S2", app_code := "A2", composite_score := "Moderate",
           class_type := "DB", total_infrastructure := 1,
           composite_score_number := 2, composite_risk_score := 2,
           composite_risk_score_percent := 0 }]
        (by norm_num [List.forall_mem_cons])).1
      (by norm_num [total_risk])
    rw [h]
    norm_num [total_risk]
  · have h :=
      (c3_global_percentage_assignment
        [{ application_service := "S3", app_code := "A3", composite_score := "Critical",
           class_type := "DB", total_infrastructure := 4,
           composite_score_number := 0, composite_risk_score := 0,
           composite_risk_score_percent := 7 }]
        (by norm_num [List.forall_mem_cons])).2
      (by norm_num [total_risk])
    rw [h]
    rfl

/-- C6: under the data-model invariant that risk scores are nonnegative,
the percentages assigned by the global pass sum to exactly 100 (exact
rational arithmetic) whenever the total risk is nonzero, and are all
exactly 0 when the total risk is zero. -/
theorem c6_global_percentages_sum (records : List InfrastructureRecord)
    (h : ∀ r ∈ records, 0 ≤ r.composite_risk_score) :
    (total_risk records ≠ 0 →
      ((calculate_risk_percentages records).map
          (·.composite_risk_score_percent)).sum = 100) ∧
    (total_risk records = 0 →
      ∀ r ∈ calculate_risk_percentages records,
        r.composite_risk_score_percent = 0) := by
  constructor
  · intro hne
    rw [calculate_risk_percentages, if_pos (total_risk_pos_of_ne records h hne),
      List.map_map]
    have h1 : ((fun r : InfrastructureRecord => r.composite_risk_score_percent) ∘
        fun r : InfrastructureRecord =>
          { r with composite_risk_score_percent :=
              r.composite_risk_score / total_risk records * 100 }) =
        fun r : InfrastructureRecord =>
          r.composite_risk_score / total_risk records * 100 := rfl
    rw [h1]
    have h2 : records.map
        (fun r => r.composite_risk_score / total_risk records * 100) =
        (records.map (·.composite_risk_score)).map
          (fun x => x / total_risk records * 100) := by
      rw [List.map_map]
      rfl
    rw [h2, sum_map_div_mul]
    show total_risk records / total_risk records * 100 = 100
    rw [div_self hne, one_mul]
  · intro hz
    rw [calculate_risk_percentages, if_neg (by rw [hz]; exact lt_irrefl 0)]
    intro r hr
    obtain ⟨s, _, rfl⟩ := List.mem_map.mp hr
    rfl

/-- Witness for C6: on a concrete two-record input with total risk 8 the
assigned percentages sum to 100; on a concrete zero-risk input every
assigned percentage is 0. -/
theorem c6_global_percentages_sum_witness :
    ((calculate_risk_percentages
        [{ application_service := "S1", app_code := "B1", composite_score := "High",
           class_type := "Server", total_infrastructure := 2,
           composite_score_number := 3, composite_risk_score := 6,
           composite_risk_score_percent := 0 },
         { application_service := "S2", app_code := "B2", composite_score := "Moderate",
           class_type := "DB", total_infrastructure := 1,
           composite_score_number := 2, composite_risk_score := 2,
           composite_risk_score_percent := 0 }]).map
        (·.composite_risk_score_percent)).sum = 100 ∧
    ∀ r ∈ calculate_risk_percentages
        [{ application_service := "S3", app_code := "B3", composite_score := "Critical",
           class_type := "DB", total_infrastructure := 4,
           composite_score_number := 0, composite_risk_score := 0,
           composite_risk_score_percent := 7 }],
      r.composite_risk_score_percent = 0 := by
  constructor
  · exact (c6_global_percentages_sum
      [{ application_service := "S1", app_code := "B1", composite_score := "High",
         class_type := "Server", total_infrastructure := 2,
         composite_score_number := 3, composite_risk_score := 6,
         composite_risk_score_percent := 0 },
       { application_service := "S2", app_code := "B2", composite_score := "Moderate",
         class_type := "DB", total_infrastructure := 1,
         composite_score_number := 2, composite_risk_score := 2,
         composite_risk_score_percent := 0 }]
      (by norm_num [List.forall_mem_cons])).1 (by norm_num [total_risk])
  · exact (c6_global_percentages_sum
      [{ application_service := "S3", app_code := "B3", composite_score := "Critical",
         class_type := "DB", total_infrastructure := 4,
         composite_score_number := 0, composite_risk_score := 0,
         composite_risk_score_percent := 7 }]
      (by norm_num [List.forall_mem_cons])).2 (by norm_num [total_risk])

lemma filter_of_map_congr {α β : Type} (f : α → β) (p : β → Bool) (q : α → Bool)
    (l : List α) (h : ∀ x ∈ l, p (f x) = q x) :
    (l.map f).filter p = (l.filter q).map f := by
  induction l with
  | nil => rfl
  | cons x xs ih =>
      have hx := h x (List.mem_cons_self _ _)
      have ih' := ih fun y hy => h y (List.mem_cons_of_mem _ hy)
      by_cases hqx : q x = true
      · simp [List.filter_cons, hx, hqx, ih']
      · simp only [Bool.not_eq_true] at hqx
        simp [List.filter_cons, hx, hqx, ih']

lemma group_percent_update_cs (records : List InfrastructureRecord)
    (r : InfrastructureRecord) :
    (group_percent_update records r).composite_score = r.composite_score := by
  unfold group_percent_update
  split <;> rfl

lemma grouped_on_label (records : List InfrastructureRecord) (lab : String) :
    (calculate_risk_percentages_by_group records).filter
        (fun r => r.composite_score = lab) =
      (records.filter fun r => r.composite_score = lab).map fun r =>
        if total_risk (records.filter fun s => s.composite_score = lab) > 0 then
          { r with composite_risk_score_percent :=
              r.composite_risk_score /
                total_risk (records.filter fun s => s.composite_score = lab) * 100 }
        else
          { r with composite_risk_score_percent := 0 } := by
  rw [calculate_risk_percentages_by_group,
    filter_of_map_congr (group_percent_update records)
      (fun r => r.composite_score = lab) (fun r => r.composite_score = lab)
      records (fun x _ => by simp [group_percent_update_cs])]
  apply List.map_congr_left
  intro r hr
  have hrcs : r.composite_score = lab := by
    simpa using (List.mem_filter.mp hr).2
  unfold group_percent_update
  rw [show (fun s : InfrastructureRecord =>
      decide (s.composite_score = r.composite_score)) =
      (fun s : InfrastructureRecord => decide (s.composite_score = lab)) from
    by funext s; rw [hrcs]]

lemma sum_pct_update (G : List InfrastructureRecord) (T : ℚ) (hne : T ≠ 0)
    (hsum : (G.map (·.composite_risk_score)).sum = T) :
    ((G.map fun r =>
        { r with composite_risk_score_percent :=
            r.composite_risk_score / T * 100 }).map
      (·.composite_risk_score_percent)).sum = 100 := by
  rw [List.map_map]
  have h1 : ((fun r : InfrastructureRecord => r.composite_risk_score_percent) ∘
      fun r : InfrastructureRecord =>
        { r with composite_risk_score_percent :=
            r.composite_risk_score / T * 100 }) =
      fun r : InfrastructureRecord => r.composite_risk_score / T * 100 := rfl
  rw [h1]
  have h2 : G.map (fun r => r.composite_risk_score / T * 100) =
      (G.map (·.composite_risk_score)).map (fun x => x / T * 100) := by
    rw [List.map_map]
    rfl
  rw [h2, sum_map_div_mul, hsum, div_self hne, one_mul]

/-- C4: the grouped normalization variant (modelled from the spec, see
`calculate_risk_percentages_by_group`) partitions records by severity
label and normalizes within each group: for any label, if the group's
total risk is nonzero the group's assigned percentages sum to exactly
100, and if the group's total risk is zero every record of the group is
assigned exactly 0 — independently of all other groups.  The
nonnegativity hypothesis is the data-model invariant on risk scores. -/
theorem c4_grouped_percentages (records : List InfrastructureRecord)
    (h : ∀ r ∈ records, 0 ≤ r.composite_risk_score) (lab : String) :
    (total_risk (records.filter fun r => r.composite_score = lab) ≠ 0 →
      (((calculate_risk_percentages_by_group records).filter
          (fun r => r.composite_score = lab)).map
        (·.composite_risk_score_percent)).sum = 100) ∧
    (total_risk (records.filter fun r => r.composite_score = lab) = 0 →
      ∀ r ∈ (calculate_risk_percentages_by_group records).filter
          (fun r => r.composite_score = lab),
        r.composite_risk_score_percent = 0) := by
  have hG : ∀ r ∈ records.filter (fun r => r.composite_score = lab),
      0 ≤ r.composite_risk_score :=
    fun r hr => h r (List.mem_filter.mp hr).1
  constructor
  · intro hne
    have hpos := total_risk_pos_of_ne _ hG hne
    rw [grouped_on_label]
    have hmap : (records.filter fun r => r.composite_score = lab).map
        (fun r =>
          if total_risk (records.filter fun s => s.composite_score = lab) > 0 then
            { r with composite_risk_score_percent :=
                r.composite_risk_score /
                  total_risk (records.filter fun s => s.composite_score = lab) * 100 }
          else
            { r with composite_risk_score_percent := 0 }) =
        (records.filter fun r => r.composite_score = lab).map
          (fun r =>
            { r with composite_risk_score_percent :=
                r.composite_risk_score /
                  total_risk (records.filter fun s => s.composite_score = lab) * 100 }) :=
      List.map_congr_left fun r _ => if_pos hpos
    rw [hmap]
    exact sum_pct_update _ _ hne rfl
  · intro hz
    have hneg : ¬ total_risk (records.filter fun r => r.composite_score = lab) > 0 := by
      rw [hz]
      exact lt_irrefl 0
    rw [grouped_on_label]
    intro r hr
    obtain ⟨s, _, rfl⟩ := List.mem_map.mp hr
    rw [if_neg hneg]

/-- Witness for C4, mirroring the repository's grouped-percentage test
data: two `High` records with risks 30 and 60 and two `Low` records with
risks 30 and 40; within the `High` group the assigned percentages sum to
100. -/
theorem c4_grouped_percentages_witness :
    (((calculate_risk_percentages_by_group
        [{ application_service := "App1", app_code := "G1", composite_score := "High",
           class_type := "Server", total_infrastructure := 10,
           composite_score_number := 3, composite_risk_score := 30,
           composite_risk_score_percent := 0 },
         { application_service := "App2", app_code := "G2", composite_score := "High",
           class_type := "Server", total_infrastructure := 20,
           composite_score_number := 3, composite_risk_score := 60,
           composite_risk_score_percent := 0 },
         { application_service := "App3", app_code := "G3", composite_score := "Low",
           class_type := "DB", total_infrastructure := 30,
           composite_score_number := 1, composite_risk_score := 30,
           composite_risk_score_percent := 0 },
         { application_service := "App4", app_code := "G4", composite_score := "Low",
           class_type := "DB", total_infrastructure := 40,
           composite_score_number := 1, composite_risk_score := 40,
           composite_risk_score_percent := 0 }]).filter
        (fun r => r.composite_score = "High")).map
      (·.composite_risk_score_percent)).sum = 100 := by
  exact (c4_grouped_percentages
    [{ application_service := "App1", app_code := "G1", composite_score := "High",
       class_type := "Server", total_infrastructure := 10,
       composite_score_number := 3, composite_risk_score := 30,
       composite_risk_score_percent := 0 },
     { application_service := "App2", app_code := "G2", composite_score := "High",
       class_type := "Server", total_infrastructure := 20,
       composite_score_number := 3, composite_risk_score := 60,
       composite_risk_score_percent := 0 },
     { application_service := "App3", app_code := "G3", composite_score := "Low",
       class_type := "DB", total_infrastructure := 30,
       composite_score_number := 1, composite_risk_score := 30,
       composite_risk_score_percent := 0 },
     { application_service := "App4", app_code := "G4", composite_score := "Low",
       class_type := "DB", total_infrastructure := 40,
       composite_score_number := 1, composite_risk_score := 40,
       composite_risk_score_percent := 0 }]
    (by norm_num [List.forall_mem_cons]) "High").1
    (by simp [total_risk]; norm_num)

lemma chartLe_trans (a b c : InfrastructureRecord)
    (hab : chartLe a b = true) (hbc : chartLe b c = true) : chartLe a c = true := by
  simp only [chartLe, decide_eq_true_eq] at hab hbc ⊢
  exact le_trans hbc hab

lemma chartLe_total (a b : InfrastructureRecord) :
    (chartLe a b || chartLe b a) = true := by
  simp only [chartLe, Bool.or_eq_true, decide_eq_true_eq]
  exact le_total _ _

lemma chart_entries_from_length (i : Nat) (l : List InfrastructureRecord) :
    (chart_entries_from i l).length = l.length := by
  induction l generalizing i with
  | nil => rfl
  | cons r rs ih => simp [chart_entries_from, ih]

lemma chart_entries_from_ranks (i : Nat) (l : List InfrastructureRecord) :
    (chart_entries_from i l).map (·.rank) = List.range' i l.length := by
  induction l generalizing i with
  | nil => rfl
  | cons r rs ih =>
      simp [chart_entries_from, List.range'_succ, ih]

lemma chart_entries_from_mem (i : Nat) (l : List InfrastructureRecord)
    (e : RiskChartEntry) (h : e ∈ chart_entries_from i l) :
    ∃ r ∈ l, e.app_code = r.app_code ∧
      e.composite_risk_score = r.composite_risk_score ∧
      e.composite_risk_score_percent = r.composite_risk_score_percent := by
  induction l generalizing i with
  | nil => exact absurd h (List.not_mem_nil e)
  | cons r rs ih =>
      rcases List.mem_cons.mp h with heq | hmem
      · exact ⟨r, List.mem_cons_self _ _, by rw [heq], by rw [heq], by rw [heq]⟩
      · obtain ⟨s, hs, h1, h2, h3⟩ := ih _ hmem
        exact ⟨s, List.mem_cons_of_mem _ hs, h1, h2, h3⟩

lemma chart_entries_from_pairwise (i : Nat) (l : List InfrastructureRecord)
    (h : List.Pairwise
      (fun a b : InfrastructureRecord =>
        b.composite_risk_score_percent ≤ a.composite_risk_score_percent) l) :
    List.Pairwise
      (fun a b : RiskChartEntry =>
        b.composite_risk_score_percent ≤ a.composite_risk_score_percent)
      (chart_entries_from i l) := by
  induction l generalizing i with
  | nil => exact List.Pairwise.nil
  | cons r rs ih =>
      rw [List.pairwise_cons] at h
      refine List.Pairwise.cons ?_ (ih _ h.2)
      intro e he
      obtain ⟨s, hs, _, _, hpct⟩ := chart_entries_from_mem _ _ _ he
      rw [hpct]
      exact h.1 s hs

lemma chart_entries_from_filter_proj (q : ℚ) (i : Nat)
    (l : List InfrastructureRecord) :
    ((chart_entries_from i l).filter
        (fun e => e.composite_risk_score_percent = q)).map
      (fun e => (e.app_code, e.composite_risk_score)) =
    (l.filter (fun r => r.composite_risk_score_percent = q)).map
      (fun r => (r.app_code, r.composite_risk_score)) := by
  induction l generalizing i with
  | nil => rfl
  | cons r rs ih =>
      by_cases h : r.composite_risk_score_percent = q
      · simp [chart_entries_from, List.filter_cons, h, ih]
      · simp [chart_entries_from, List.filter_cons, h, ih]

lemma chart_entries_from_proj (i : Nat) (l : List InfrastructureRecord) :
    (chart_entries_from i l).map
      (fun e => (e.app_code, e.composite_risk_score,
        e.composite_risk_score_percent)) =
    l.map
      (fun r => (r.app_code, r.composite_risk_score,
        r.composite_risk_score_percent)) := by
  induction l generalizing i with
  | nil => rfl
  | cons r rs ih => simp [chart_entries_from, ih]

lemma mergeSort_chartLe_filter (records : List InfrastructureRecord) (q : ℚ) :
    (records.mergeSort chartLe).filter
        (fun r => r.composite_risk_score_percent = q) =
      records.filter (fun r => r.composite_risk_score_percent = q) := by
  have hall : ∀ a ∈ records.filter
      (fun r => r.composite_risk_score_percent = q),
      a.composite_risk_score_percent = q := by
    intro a ha
    simpa using (List.mem_filter.mp ha).2
  have hpair : List.Pairwise (fun a b => chartLe a b = true)
      (records.filter (fun r => r.composite_risk_score_percent = q)) := by
    apply List.pairwise_of_forall_mem_list
    intro a ha b hb
    simp only [chartLe, decide_eq_true_eq, hall a ha, hall b hb]
    exact le_refl q
  have hs : (records.filter
      (fun r => r.composite_risk_score_percent = q)).Sublist
      (records.mergeSort chartLe) :=
    List.sublist_mergeSort chartLe_trans chartLe_total hpair
      (List.filter_sublist records)
  have hsub2 : (records.filter
      (fun r => r.composite_risk_score_percent = q)).Sublist
      ((records.mergeSort chartLe).filter
        (fun r => r.composite_risk_score_percent = q)) := by
    have h' := hs.filter (fun r => decide (r.composite_risk_score_percent = q))
    rwa [List.filter_eq_self.mpr (fun a ha => (List.mem_filter.mp ha).2)] at h'
  have hlen : (records.filter
      (fun r => r.composite_risk_score_percent = q)).length =
      ((records.mergeSort chartLe).filter
        (fun r => r.composite_risk_score_percent = q)).length :=
    (((List.mergeSort_perm records chartLe).filter _).length_eq).symm
  exact (hsub2.eq_of_length hlen).symm

/-- C5: the chart generator returns as many entries as it is given
records; the rank fields are exactly the consecutive integers 1..N in
output order; the entries' risk-share percentages are non-increasing
along the output; and ties are kept in original input order (for every
percentage value, the entries carrying it appear in exactly the order
the records carrying it appear in the input — the stable-sort
property). -/
theorem c5_chart_ranking (records : List InfrastructureRecord) :
    (generate_chart records).length = records.length ∧
    (generate_chart records).map (·.rank) = List.range' 1 records.length ∧
    List.Pairwise
      (fun a b : RiskChartEntry =>
        b.composite_risk_score_percent ≤ a.composite_risk_score_percent)
      (generate_chart records) ∧
    ∀ q : ℚ,
      ((generate_chart records).filter
          (fun e => e.composite_risk_score_percent = q)).map
        (fun e => (e.app_code, e.composite_risk_score)) =
      (records.filter (fun r => r.composite_risk_score_percent = q)).map
        (fun r => (r.app_code, r.composite_risk_score)) := by
  refine ⟨?_, ?_, ?_, ?_⟩
  · rw [generate_chart, chart_entries_from_length, List.length_mergeSort]
  · rw [generate_chart, chart_entries_from_ranks, List.length_mergeSort]
  · exact chart_entries_from_pairwise _ _
      ((List.sorted_mergeSort chartLe_trans chartLe_total records).imp
        (fun hab => by simpa [chartLe, decide_eq_true_eq] using hab))
  · intro q
    rw [generate_chart, chart_entries_from_filter_proj, mergeSort_chartLe_filter]

lemma optionMapList_isSome {α β : Type} (f : α → Option β) :
    ∀ (l : List α), (∀ x ∈ l, (f x).isSome = true) →
      (optionMapList f l).isSome = true := by
  intro l
  induction l with
  | nil => intro _; rfl
  | cons x xs ih =>
      intro h
      have hx := h x (List.mem_cons_self _ _)
      obtain ⟨y, hy⟩ := Option.isSome_iff_exists.mp hx
      have hxs := ih fun z hz => h z (List.mem_cons_of_mem _ hz)
      obtain ⟨ys, hys⟩ := Option.isSome_iff_exists.mp hxs
      simp [optionMapList, hy, hys]

lemma optionMapList_mem {α β : Type} (f : α → Option β) :
    ∀ (l : List α) (ys : List β), optionMapList f l = some ys →
      ∀ y ∈ ys, ∃ x ∈ l, f x = some y := by
  intro l
  induction l with
  | nil =>
      intro ys hys y hy
      simp only [optionMapList] at hys
      rw [← Option.some.inj hys] at hy
      exact absurd hy (List.not_mem_nil y)
  | cons x xs ih =>
      intro ys hys y hy
      simp only [optionMapList] at hys
      cases hfx : f x with
      | none => rw [hfx] at hys; exact absurd hys (by simp)
      | some z =>
          rw [hfx] at hys
          cases hrest : optionMapList f xs with
          | none => rw [hrest] at hys; exact absurd hys (by simp)
          | some zs =>
              rw [hrest] at hys
              have hcons : z :: zs = ys := Option.some.inj hys
              rw [← hcons] at hy
              rcases List.mem_cons.mp hy with heq | hmem
              · exact ⟨x, List.mem_cons_self _ _, by rw [hfx, heq]⟩
              · obtain ⟨w, hw, hfw⟩ := ih zs hrest y hmem
                exact ⟨w, List.mem_cons_of_mem _ hw, hfw⟩

lemma optionMapList_map_eq {α β γ : Type} (f : α → Option β) (g : β → γ)
    (g' : α → γ) (hf : ∀ x y, f x = some y → g y = g' x) :
    ∀ (l : List α) (ys : List β), optionMapList f l = some ys →
      ys.map g = l.map g' := by
  intro l
  induction l with
  | nil =>
      intro ys hys
      rw [← Option.some.inj hys]
      rfl
  | cons x xs ih =>
      intro ys hys
      simp only [optionMapList] at hys
      cases hfx : f x with
      | none => rw [hfx] at hys; exact absurd hys (by simp)
      | some z =>
          rw [hfx] at hys
          cases hrest : optionMapList f xs with
          | none => rw [hrest] at hys; exact absurd hys (by simp)
          | some zs =>
              rw [hrest] at hys
              rw [← Option.some.inj hys]
              simp only [List.map_cons]
              rw [hf x z hfx, ih zs hrest]

lemma count_get_isSome_of_mem (records : List InfrastructureRecord) (k : String)
    (h : ∃ r ∈ records, r.app_code = k) :
    (dictGet? (count_appcodes records) k).isSome = true := by
  obtain ⟨r, hr, hk⟩ := h
  have hne : rawCount records k ≠ 0 := by
    intro h0
    have hmemf : r ∈ records.filter (fun s => s.app_code = k) :=
      List.mem_filter.mpr ⟨hr, by simp [hk]⟩
    rw [rawCount, List.length_eq_zero] at h0
    rw [h0] at hmemf
    exact List.not_mem_nil r hmemf
  rw [dictGet?_count_appcodes, if_neg hne]
  rfl

lemma count_get_eq (records : List InfrastructureRecord) (k : String) (c : Nat)
    (h : dictGet? (count_appcodes records) k = some c) :
    c = rawCount records k := by
  rw [dictGet?_count_appcodes] at h
  by_cases h0 : rawCount records k = 0
  · rw [if_pos h0] at h
    exact absurd h (by simp)
  · rw [if_neg h0] at h
    exact (Option.some.inj h).symm

lemma dictGet?_filter_some {β : Type} (m : List (String × β))
    (pred : String → Bool) (k : String) (c : β)
    (h : dictGet? (m.filter fun p => pred p.1) k = some c) :
    dictGet? m k = some c := by
  rw [dictGet?_filter] at h
  by_cases hp : pred k = true
  · rwa [if_pos hp] at h
  · rw [if_neg hp] at h
    exact absurd h (by simp)

lemma pipeline_unique_origin (filt : Option CSVAppCodeFilter)
    (records : List InfrastructureRecord) (p : String × InfrastructureRecord)
    (hp : p ∈ pipeline_unique filt records) :
    p.2 ∈ records ∧ p.1 = p.2.app_code := by
  have hp' : p ∈ unique_by_appcode records := by
    cases filt with
    | none => exact hp
    | some f => exact (List.mem_filter.mp hp).1
  cases unique_foldl_mem records [] p hp' with
  | inl h => exact absurd h (List.not_mem_nil p)
  | inr h => exact h

lemma pipeline_counts_get_isSome (filt : Option CSVAppCodeFilter)
    (records : List InfrastructureRecord) (p : String × InfrastructureRecord)
    (hp : p ∈ pipeline_unique filt records) :
    (dictGet? (pipeline_counts filt records) p.2.app_code).isSome = true := by
  obtain ⟨hmem, hkey⟩ := pipeline_unique_origin filt records p hp
  have hraw : (dictGet? (count_appcodes records) p.2.app_code).isSome = true :=
    count_get_isSome_of_mem records p.2.app_code ⟨p.2, hmem, rfl⟩
  cases filt with
  | none => exact hraw
  | some f =>
      have hallow : f.is_allowed p.1 = true := (List.mem_filter.mp hp).2
      rw [hkey] at hallow
      rw [pipeline_counts, dictGet?_filter, if_pos hallow]
      exact hraw

/-- C9: the unguarded dictionary lookup performed during enrichment can
never fail: for every filter configuration and every input record
sequence the pipeline returns a result (`isSome`), because the
occurrence-count map is tallied from the same raw records and filtered
by the same allow predicate as the deduplicated records being
enriched. -/
theorem c9_enrichment_lookup_total (filt : Option CSVAppCodeFilter)
    (records : List InfrastructureRecord) :
    (analyze_data filt records).isSome = true := by
  by_cases hrec : records.isEmpty
  · rw [analyze_data, if_pos hrec]
    rfl
  · rw [analyze_data, if_neg hrec]
    have hsome : (enhance_records ((pipeline_unique filt records).map (·.2))
        (pipeline_counts filt records)).isSome = true := by
      rw [enhance_records]
      have h1 : (optionMapList (enhance_record (pipeline_counts filt records))
          ((pipeline_unique filt records).map (·.2))).isSome = true := by
        apply optionMapList_isSome
        intro r hr
        obtain ⟨p, hp, rfl⟩ := List.mem_map.mp hr
        have h2 := pipeline_counts_get_isSome filt records p hp
        obtain ⟨c, hc⟩ := Option.isSome_iff_exists.mp h2
        rw [enhance_record, hc]
        rfl
      obtain ⟨ys, hys⟩ := Option.isSome_iff_exists.mp h1
      rw [hys]
      rfl
    obtain ⟨v, hv⟩ := Option.isSome_iff_exists.mp hsome
    rw [hv]
    rfl

lemma mem_calculate_risk_scores {l : List InfrastructureRecord}
    {r : InfrastructureRecord} (h : r ∈ calculate_risk_scores l) :
    ∃ s ∈ l, r.application_service = s.application_service ∧
      r.app_code = s.app_code ∧ r.composite_score = s.composite_score ∧
      r.class_type = s.class_type ∧
      r.total_infrastructure = s.total_infrastructure ∧
      r.composite_score_number = s.composite_score_number ∧
      r.composite_risk_score =
        s.composite_score_number * (s.total_infrastructure : ℚ) := by
  obtain ⟨s, hs, rfl⟩ := List.mem_map.mp h
  exact ⟨s, hs, rfl, rfl, rfl, rfl, rfl, rfl, rfl⟩

lemma mem_calculate_risk_percentages {l : List InfrastructureRecord}
    {r : InfrastructureRecord} (h : r ∈ calculate_risk_percentages l) :
    ∃ s ∈ l, r.application_service = s.application_service ∧
      r.app_code = s.app_code ∧ r.composite_score = s.composite_score ∧
      r.class_type = s.class_type ∧
      r.total_infrastructure = s.total_infrastructure ∧
      r.composite_score_number = s.composite_score_number ∧
      r.composite_risk_score = s.composite_risk_score := by
  rw [calculate_risk_percentages] at h
  by_cases ht : total_risk l > 0
  · rw [if_pos ht] at h
    obtain ⟨s, hs, rfl⟩ := List.mem_map.mp h
    exact ⟨s, hs, rfl, rfl, rfl, rfl, rfl, rfl, rfl⟩
  · rw [if_neg ht] at h
    obtain ⟨s, hs, rfl⟩ := List.mem_map.mp h
    exact ⟨s, hs, rfl, rfl, rfl, rfl, rfl, rfl, rfl⟩

lemma enhance_record_fields (counts : List (String × Nat))
    (x y : InfrastructureRecord) (h : enhance_record counts x = some y) :
    y.application_service = x.application_service ∧ y.app_code = x.app_code ∧
    y.composite_score = x.composite_score ∧ y.class_type = x.class_type ∧
    y.composite_score_number = map_to_number x.composite_score ∧
    dictGet? counts x.app_code = some y.total_infrastructure := by
  rw [enhance_record] at h
  cases hc : dictGet? counts x.app_code with
  | none => rw [hc] at h; exact absurd h (by simp)
  | some c =>
      rw [hc] at h
      simp only [Option.map_some'] at h
      have hy := Option.some.inj h
      rw [← hy]
      exact ⟨rfl, rfl, rfl, rfl, rfl, rfl⟩

lemma enhance_records_mem (records : List InfrastructureRecord)
    (counts : List (String × Nat)) (out : List InfrastructureRecord)
    (h : enhance_records records counts = some out) :
    ∀ r ∈ out,
      r.composite_score_number = map_to_number r.composite_score ∧
      r.composite_risk_score =
        r.composite_score_number * (r.total_infrastructure : ℚ) ∧
      dictGet? counts r.app_code = some r.total_infrastructure := by
  rw [enhance_records] at h
  cases hopt : optionMapList (enhance_record counts) records with
  | none => rw [hopt] at h; exact absurd h (by simp)
  | some ys =>
      rw [hopt] at h
      simp only [Option.map_some'] at h
      have hout := Option.some.inj h
      intro r hr
      rw [← hout] at hr
      obtain ⟨s, hs, _, hsac, hscs, _, hsti, hscn, hsrisk⟩ :=
        mem_calculate_risk_percentages hr
      obtain ⟨y, hy, _, hyac, hycs, _, hyti, hycn, hyrisk⟩ :=
        mem_calculate_risk_scores hs
      obtain ⟨x, _, hfx⟩ := optionMapList_mem _ records ys hopt y hy
      obtain ⟨_, hxac, hxcs, _, hxcn, hxget⟩ := enhance_record_fields counts x y hfx
      refine ⟨?_, ?_, ?_⟩
      · rw [hscn, hycn, hxcn, hscs, hycs, hxcs]
      · rw [hsrisk, hyrisk, hscn, hycn, hsti, hyti]
      · rw [hsac, hyac, hsti, hyti, hxac]
        exact hxget

/-- C2: for every record in the pipeline's output,
`total_infrastructure` equals the number of rows in the raw, unfiltered
input that share the record's `app_code` (duplicates included, i.e. the
count is taken before deduplication), `composite_risk_score` equals
`composite_score_number` times that occurrence count, and
`composite_score_number` is the mapped severity weight. -/
theorem c2_enrichment_from_raw_counts (filt : Option CSVAppCodeFilter)
    (records out : List InfrastructureRecord) (counts : List (String × Nat))
    (h : analyze_data filt records = some (out, counts)) :
    ∀ r ∈ out,
      r.total_infrastructure = rawCount records r.app_code ∧
      r.composite_risk_score =
        r.composite_score_number * (r.total_infrastructure : ℚ) ∧
      r.composite_score_number = map_to_number r.composite_score := by
  rw [analyze_data] at h
  by_cases hrec : records.isEmpty
  · rw [if_pos hrec] at h
    have hpair := Option.some.inj h
    have hout : out = [] := (congrArg Prod.fst hpair).symm
    rw [hout]
    intro r hr
    exact absurd hr (List.not_mem_nil r)
  · rw [if_neg hrec] at h
    cases henh : enhance_records ((pipeline_unique filt records).map (·.2))
        (pipeline_counts filt records) with
    | none => rw [henh] at h; exact absurd h (by simp)
    | some e =>
        rw [henh] at h
        have hpair := Option.some.inj h
        have hout : out = e.mergeSort appCodeLe := (congrArg Prod.fst hpair).symm
        intro r hr
        rw [hout] at hr
        have hre : r ∈ e := List.mem_mergeSort.mp hr
        obtain ⟨hcsn, hrisk, hget⟩ :=
          enhance_records_mem _ _ _ henh r hre
        have hraw : dictGet? (count_appcodes records) r.app_code =
            some r.total_infrastructure := by
          cases filt with
          | none => exact hget
          | some f => exact dictGet?_filter_some _ _ _ _ hget
        exact ⟨count_get_eq _ _ _ hraw, hrisk, hcsn⟩

/-- Witness for C2: a concrete run with one duplicated `APP1` row; the
surviving record's occurrence count is 2 (the raw row count, not the
deduplicated count of 1), its risk score is the weight 3 times that
count, and its weight is the mapped severity of `High`. -/
theorem c2_enrichment_from_raw_counts_witness :
    ({ application_service := "S1", app_code := "APP1", composite_score := "High",
       class_type := "Server", total_infrastructure := 2, composite_score_number := 3,
       composite_risk_score := 6, composite_risk_score_percent := 100 } :
        InfrastructureRecord).total_infrastructure =
      rawCount
        [{ application_service := "S1", app_code := "APP1", composite_score := "High",
           class_type := "Server", total_infrastructure := 0, composite_score_number := 0,
           composite_risk_score := 0, composite_risk_score_percent := 0 },
         { application_service := "S1", app_code := "APP1", composite_score := "High",
           class_type := "Server", total_infrastructure := 0, composite_score_number := 0,
           composite_risk_score := 0, composite_risk_score_percent := 0 }]
        ({ application_service := "S1", app_code := "APP1", composite_score := "High",
           class_type := "Server", total_infrastructure := 2, composite_score_number := 3,
           composite_risk_score := 6, composite_risk_score_percent := 100 } :
            InfrastructureRecord).app_code ∧
    ({ application_service := "S1", app_code := "APP1", composite_score := "High",
       class_type := "Server", total_infrastructure := 2, composite_score_number := 3,
       composite_risk_score := 6, composite_risk_score_percent := 100 } :
        InfrastructureRecord).composite_risk_score =
      ({ application_service := "S1", app_code := "APP1", composite_score := "High",
         class_type := "Server", total_infrastructure := 2, composite_score_number := 3,
         composite_risk_score := 6, composite_risk_score_percent := 100 } :
          InfrastructureRecord).composite_score_number * (2 : ℚ) ∧
    ({ application_service := "S1", app_code := "APP1", composite_score := "High",
       class_type := "Server", total_infrastructure := 2, composite_score_number := 3,
       composite_risk_score := 6, composite_risk_score_percent := 100 } :
        InfrastructureRecord).composite_score_number = map_to_number "High" := by
  exact c2_enrichment_from_raw_counts none
    [{ application_service := "S1", app_code := "APP1", composite_score := "High",
       class_type := "Server", total_infrastructure := 0, composite_score_number := 0,
       composite_risk_score := 0, composite_risk_score_percent := 0 },
     { application_service := "S1", app_code := "APP1", composite_score := "High",
       class_type := "Server", total_infrastructure := 0, composite_score_number := 0,
       composite_risk_score := 0, composite_risk_score_percent := 0 }]
    [{ application_service := "S1", app_code := "APP1", composite_score := "High",
       class_type := "Server", total_infrastructure := 2, composite_score_number := 3,
       composite_risk_score := 6, composite_risk_score_percent := 100 }]
    [("APP1", 2)]
    (by
      simp only [analyze_data, pipeline_unique, pipeline_counts, unique_by_appcode,
        count_appcodes, enhance_records, optionMapList, enhance_record,
        calculate_risk_scores, calculate_risk_percentages, total_risk,
        dictGet?, dictSet, dictContains, dictGetD, map_to_number, List.mergeSort,
        List.foldl, List.map, List.isEmpty]
      norm_num)
    _ (List.mem_cons_self _ _)

lemma base_map_scores (l : List InfrastructureRecord) :
    (calculate_risk_scores l).map baseFields = l.map baseFields := by
  rw [calculate_risk_scores, List.map_map]
  rfl

lemma base_map_pct (l : List InfrastructureRecord) :
    (calculate_risk_percentages l).map baseFields = l.map baseFields := by
  rw [calculate_risk_percentages]
  by_cases ht : total_risk l > 0
  · rw [if_pos ht, List.map_map]
    rfl
  · rw [if_neg ht, List.map_map]
    rfl

/-- C10: enrichment changes only the four derived fields — the base
fields (`application_service`, `app_code`, `composite_score`,
`class_type`) of the output records are, position by position, exactly
those of the input records — and chart generation builds fresh
`RiskChartEntry` values whose payload is a permutation of projections of
the (unmodified) records. -/
theorem c10_enrichment_frame (records : List InfrastructureRecord)
    (counts : List (String × Nat)) (out : List InfrastructureRecord)
    (h : enhance_records records counts = some out) :
    out.map baseFields = records.map baseFields ∧
    ((generate_chart out).map
        (fun e => (e.app_code, e.composite_risk_score,
          e.composite_risk_score_percent))).Perm
      (out.map (fun r => (r.app_code, r.composite_risk_score,
        r.composite_risk_score_percent))) := by
  constructor
  · rw [enhance_records] at h
    cases hopt : optionMapList (enhance_record counts) records with
    | none => rw [hopt] at h; exact absurd h (by simp)
    | some ys =>
        rw [hopt] at h
        simp only [Option.map_some'] at h
        have hout := Option.some.inj h
        have hys : ys.map baseFields = records.map baseFields := by
          apply optionMapList_map_eq (enhance_record counts) baseFields baseFields
            ?_ records ys hopt
          intro x y hxy
          obtain ⟨h1, h2, h3, h4, _, _⟩ := enhance_record_fields counts x y hxy
          rw [baseFields, baseFields, h1, h2, h3, h4]
        rw [← hout, base_map_pct, base_map_scores, hys]
  · rw [generate_chart, chart_entries_from_proj]
    exact (List.mergeSort_perm out chartLe).map _

/-- Witness for C10: a concrete one-record enrichment; the base fields
of the output equal those of the input and the chart payload is a
permutation of the record projections. -/
theorem c10_enrichment_frame_witness :
    ([{ application_service := "SvcW", app_code := "K", composite_score := "Low",
        class_type := "DB", total_infrastructure := 5, composite_score_number := 1,
        composite_risk_score := 5, composite_risk_score_percent := 100 }] :
      List InfrastructureRecord).map baseFields =
      ([{ application_service := "SvcW", app_code := "K", composite_score := "Low",
          class_type := "DB", total_infrastructure := 0, composite_score_number := 0,
          composite_risk_score := 0, composite_risk_score_percent := 0 }] :
        List InfrastructureRecord).map baseFields := by
  exact (c10_enrichment_frame
    [{ application_service := "SvcW", app_code := "K", composite_score := "Low",
       class_type := "DB", total_infrastructure := 0, composite_score_number := 0,
       composite_risk_score := 0, composite_risk_score_percent := 0 }]
    [("K", 5)]
    [{ application_service := "SvcW", app_code := "K", composite_score := "Low",
       class_type := "DB", total_infrastructure := 5, composite_score_number := 1,
       composite_risk_score := 5, composite_risk_score_percent := 100 }]
    (by
      simp only [enhance_records, optionMapList, enhance_record, dictGet?,
        calculate_risk_scores, calculate_risk_percentages, total_risk,
        map_to_number, List.map]
      simp)).1

lemma analyze_data_filtered_out_example :
    analyze_data (some { allowed_appcodes := ["APP1"] })
      [{ application_service := "Svc", app_code := "APP2",
         composite_score := "High", class_type := "Server",
         total_infrastructure := 0, composite_score_number := 0,
         composite_risk_score := 0, composite_risk_score_percent := 0 }] =
      some ([], []) := by
  simp only [analyze_data, pipeline_unique, pipeline_counts, unique_by_appcode,
    count_appcodes, enhance_records, optionMapList, enhance_record,
    calculate_risk_scores, calculate_risk_percentages, total_risk,
    dictGet?, dictSet, dictContains, dictGetD, List.foldl, List.map,
    List.isEmpty, List.filter,
    show (CSVAppCodeFilter.is_allowed { allowed_appcodes := ["APP1"] } "APP2")
      = false from by decide]
  simp [List.mergeSort]

/-- Counterexample for C8: the pipeline's result for an empty raw read
is byte-for-byte identical to its result for a nonempty read whose only
record is removed by the allow-list filter — both are `([], [])` — so
the "nothing to analyze" condition is not reported distinctly from
"records were read but none qualified after filtering".  (The caller
`main` in `analyze_data_solid.py` accordingly prints the same
"No data to analyze" message and exits with status 1 in both cases.) -/
theorem c8_counterexample :
    analyze_data (some { allowed_appcodes := ["APP1"] }) [] =
      analyze_data (some { allowed_appcodes := ["APP1"] })
        [{ application_service := "Svc", app_code := "APP2",
           composite_score := "High", class_type := "Server",
           total_infrastructure := 0, composite_score_number := 0,
           composite_risk_score := 0, composite_risk_score_percent := 0 }] ∧
    ([{ application_service := "Svc", app_code := "APP2",
        composite_score := "High", class_type := "Server",
        total_infrastructure := 0, composite_score_number := 0,
        composite_risk_score := 0, composite_risk_score_percent := 0 }] :
      List InfrastructureRecord) ≠ [] := by
  constructor
  · rw [analyze_data_filtered_out_example]
    rfl
  · exact List.cons_ne_nil _ _

/-- C8 as amended: when the raw read yields zero records the pipeline
does short-circuit with the empty result `([], [])` before the filter
and enrichment steps; however that result is *not* distinct from the
outcome of a nonempty read whose records are all removed by the
allow-list filter, which also yields `([], [])`. -/
theorem c8_empty_read_short_circuit :
    (∀ filt : Option CSVAppCodeFilter, analyze_data filt [] = some ([], [])) ∧
    analyze_data (some { allowed_appcodes := ["APP1"] })
      [{ application_service := "Svc", app_code := "APP2",
         composite_score := "High", class_type := "Server",
         total_infrastructure := 0, composite_score_number := 0,
         composite_risk_score := 0, composite_risk_score_percent := 0 }] =
      some ([], []) := by
  constructor
  · intro filt
    rfl
  · exact analyze_data_filtered_out_example
